import Mathlib

/-!
Verification of the KAG_LlamaIndex validation/scoring core.

Shallow embedding of:
* `app/rag/hybrid_retriever.py` — `NewsHybridRetriever._get_relevant_documents`
  (reciprocal-rank fusion of a sparse and a dense hit list);
* `app/graph/knowledge_graph.py` — `calculate_hexagonal_metrics` and
  `validate_user_article`;
* `core/rlm_evaluator.py` — `verify_claim` / `verify_with_rlm`;
* `app/rag/decomposer.py` — `QueryDecomposer.decompose_article`.

Python floats are modelled as exact rationals (ℚ); Python `dict`s (which
preserve insertion order, overwrite in place, and append new keys at the
end) are modelled as association lists with those operations made explicit.
External calls (retrievers, Neo4j queries, LLM completions) are inputs to
the embedded functions.
-/

namespace KAG

/-! ## Hybrid retrieval (RRF fusion), from `app/rag/hybrid_retriever.py` -/

/-- A LangChain document as used by `NewsHybridRetriever`: only the
`news_id` metadata entry and the page content are consulted. -/
structure LCDocument where
  news_id : Option String
  page_content : String
deriving DecidableEq, Repr

/-- `doc.metadata.get("news_id", doc.page_content[:50])` — the identity key
used during fusion. -/
def docId (d : LCDocument) : String :=
  d.news_id.getD (d.page_content.take 50)

/-- One value of the `doc_scores` dict: `{"score": ..., "doc": ...}`. -/
structure ScoredEntry where
  score : ℚ
  doc : LCDocument
deriving DecidableEq, Repr

/-- The `doc_scores` Python dict, as an insertion-ordered association list. -/
abbrev DocMap := List (String × ScoredEntry)

/-- `doc_scores[k] = v`: overwrite in place if the key exists (a Python dict
keeps the key's original position), otherwise append at the end. -/
def dictSet (m : DocMap) (k : String) (v : ScoredEntry) : DocMap :=
  match m with
  | [] => [(k, v)]
  | (k', v') :: rest =>
    if k' = k then (k, v) :: rest else (k', v') :: dictSet rest k v

/-- The dense-phase update: `doc_scores[k]["score"] += s` when the key is
present (keeping the stored doc), else `doc_scores[k] = {"score": s, "doc": d}`. -/
def dictAdd (m : DocMap) (k : String) (s : ℚ) (d : LCDocument) : DocMap :=
  match m with
  | [] => [(k, ⟨s, d⟩)]
  | (k', v') :: rest =>
    if k' = k then (k', ⟨v'.score + s, v'.doc⟩) :: rest
    else (k', v') :: dictAdd rest k s d

/-- RRF contribution of a zero-based rank: `1.0 / (rank + c)`. -/
def rrf (c : ℚ) (rank : ℕ) : ℚ := 1 / ((rank : ℚ) + c)

/-- The sparse loop: `for rank, doc in enumerate(sparse_docs): doc_scores[id] = {...}`,
starting at rank `r` with accumulator `m`. -/
def sparsePhase (c : ℚ) : List LCDocument → ℕ → DocMap → DocMap
  | [], _, m => m
  | d :: ds, r, m => sparsePhase c ds (r + 1) (dictSet m (docId d) ⟨rrf c r, d⟩)

/-- The dense loop: accumulate into an existing entry or insert a new one. -/
def densePhase (c : ℚ) : List LCDocument → ℕ → DocMap → DocMap
  | [], _, m => m
  | d :: ds, r, m => densePhase c ds (r + 1) (dictAdd m (docId d) (rrf c r) d)

/-- The fully populated `doc_scores` dict after both loops. -/
def fuse (c : ℚ) (sparse dense : List LCDocument) : DocMap :=
  densePhase c dense 0 (sparsePhase c sparse 0 [])

/-- Stable insertion of an entry into a descending-by-score list: the entry
passes over strictly greater scores and stops before any equal or smaller
score, so an earlier element wins ties — exactly the order produced by
Python's stable `sorted(..., reverse=True)`. -/
def insertDesc (x : ScoredEntry) : List ScoredEntry → List ScoredEntry
  | [] => [x]
  | y :: ys => if x.score < y.score then y :: insertDesc x ys else x :: y :: ys

/-- Stable descending-by-score sort, modelling
`sorted(doc_scores.values(), key=lambda x: x["score"], reverse=True)`. -/
def sortDesc : List ScoredEntry → List ScoredEntry
  | [] => []
  | x :: xs => insertDesc x (sortDesc xs)

/-- `_get_relevant_documents` after the two retriever calls: fuse, sort by
score descending (stably), truncate to `k`, return the documents. -/
def getRelevantDocuments (sparse dense : List LCDocument) (k : ℕ) (c : ℚ) :
    List LCDocument :=
  ((sortDesc ((fuse c sparse dense).map Prod.snd)).take k).map ScoredEntry.doc

/-- Index and document of the LAST occurrence of an identity key in a hit
list (zero-based). -/
def lastOcc (key : String) : List LCDocument → Option (ℕ × LCDocument)
  | [] => none
  | d :: ds =>
    match lastOcc key ds with
    | some (i, e) => some (i + 1, e)
    | none => if docId d = key then some (0, d) else none

/-- Document of the FIRST occurrence of an identity key in a hit list. -/
def firstOcc (key : String) : List LCDocument → Option LCDocument
  | [] => none
  | d :: ds => if docId d = key then some d else firstOcc key ds

/-- Sum of the RRF contributions of ALL occurrences of a key in a hit list,
the first element having rank `r`. -/
def contrib (c : ℚ) (key : String) : List LCDocument → ℕ → ℚ
  | [], _ => 0
  | d :: ds, r => (if docId d = key then rrf c r else 0) + contrib c key ds (r + 1)

/-- First entry of the association list whose key is `k` (Python dict lookup). -/
def lookupKey : DocMap → String → Option ScoredEntry
  | [], _ => none
  | (k', v) :: rest, k => if k' = k then some v else lookupKey rest k

theorem lookupKey_dictSet (m : DocMap) (k' : String) (v : ScoredEntry) (k : String) :
    lookupKey (dictSet m k' v) k = if k' = k then some v else lookupKey m k := by
  induction m with
  | nil => simp [dictSet, lookupKey]
  | cons p rest ih =>
    obtain ⟨k0, v0⟩ := p
    by_cases h0 : k0 = k'
    · subst h0
      by_cases h1 : k0 = k <;> simp [dictSet, lookupKey, h1]
    · by_cases h1 : k0 = k
      · subst h1
        have : ¬ k' = k0 := fun h => h0 h.symm
        simp [dictSet, lookupKey, h0, this]
      · simp [dictSet, lookupKey, h0, h1, ih]

theorem lookupKey_dictAdd (m : DocMap) (k' : String) (s : ℚ) (d : LCDocument)
    (k : String) :
    lookupKey (dictAdd m k' s d) k =
      if k' = k then
        match lookupKey m k with
        | some e => some ⟨e.score + s, e.doc⟩
        | none => some ⟨s, d⟩
      else lookupKey m k := by
  induction m with
  | nil => by_cases h : k' = k <;> simp [dictAdd, lookupKey, h]
  | cons p rest ih =>
    obtain ⟨k0, v0⟩ := p
    by_cases h0 : k0 = k'
    · subst h0
      by_cases h1 : k0 = k <;> simp [dictAdd, lookupKey, h1]
    · by_cases h1 : k0 = k
      · subst h1
        have : ¬ k' = k0 := fun h => h0 h.symm
        simp [dictAdd, lookupKey, h0, this]
      · simp [dictAdd, lookupKey, h0, h1, ih]

/-- Within the sparse loop only the LAST occurrence of a key survives:
the dict assignment overwrites both the score and the stored document. -/
theorem lookupKey_sparsePhase (c : ℚ) (ds : List LCDocument) (r : ℕ) (m : DocMap)
    (key : String) :
    lookupKey (sparsePhase c ds r m) key =
      match lastOcc key ds with
      | some (i, e) => some ⟨rrf c (r + i), e⟩
      | none => lookupKey m key := by
  induction ds generalizing r m with
  | nil => simp [sparsePhase, lastOcc]
  | cons d ds ih =>
    rw [sparsePhase, ih]
    cases h : lastOcc key ds with
    | some p =>
      obtain ⟨i, e⟩ := p
      have : r + 1 + i = r + (i + 1) := by omega
      simp [lastOcc, h, this]
    | none =>
      by_cases hd : docId d = key <;>
        simp [lastOcc, h, hd, lookupKey_dictSet]

/-- Within the dense loop every occurrence of a key ADDS its contribution;
the stored document is the one already present, else the first dense
occurrence. -/
theorem lookupKey_densePhase (c : ℚ) (ds : List LCDocument) (r : ℕ) (m : DocMap)
    (key : String) :
    lookupKey (densePhase c ds r m) key =
      match lookupKey m key, firstOcc key ds with
      | some e, _ => some ⟨e.score + contrib c key ds r, e.doc⟩
      | none, some d => some ⟨contrib c key ds r, d⟩
      | none, none => none := by
  induction ds generalizing r m with
  | nil =>
    cases h : lookupKey m key <;> simp [densePhase, firstOcc, contrib, h]
  | cons d ds ih =>
    rw [densePhase, ih]
    by_cases hd : docId d = key
    · rw [lookupKey_dictAdd]
      cases hm : lookupKey m key with
      | some e =>
        cases hf : firstOcc key ds <;>
          simp [hd, hm, hf, firstOcc, contrib, add_assoc]
      | none =>
        cases hf : firstOcc key ds <;>
          simp [hd, hm, hf, firstOcc, contrib]
    · rw [lookupKey_dictAdd]
      cases hm : lookupKey m key with
      | some e => simp [hd, hm, firstOcc, contrib]
      | none =>
        cases hf : firstOcc key ds <;> simp [hd, hm, hf, firstOcc, contrib]

/-- Zero-based rank of the first occurrence of an identity key in a hit list. -/
def rankOf (key : String) : List LCDocument → Option ℕ
  | [] => none
  | d :: ds => if docId d = key then some 0 else (rankOf key ds).map (· + 1)

theorem lastOcc_eq_none_iff (key : String) (ds : List LCDocument) :
    lastOcc key ds = none ↔ key ∉ ds.map docId := by
  induction ds with
  | nil => simp [lastOcc]
  | cons d ds ih =>
    cases h : lastOcc key ds with
    | some p =>
      have hmem : key ∈ ds.map docId := by
        by_contra hk
        rw [← ih] at hk
        rw [hk] at h
        exact Option.noConfusion h
      obtain ⟨i, e⟩ := p
      constructor
      · intro habs
        rw [lastOcc, h] at habs
        exact Option.noConfusion habs
      · intro hnot
        exact absurd (List.mem_cons_of_mem _ hmem) hnot
    | none =>
      by_cases hd : docId d = key
      · constructor
        · intro habs
          rw [lastOcc, h, if_pos hd] at habs
          exact Option.noConfusion habs
        · intro hnot
          exact absurd (List.mem_cons_self _ _) (hd ▸ hnot)
      · rw [lastOcc, h, if_neg hd, List.map_cons, List.mem_cons]
        simp only [true_iff]
        push_neg
        exact ⟨fun hk => hd hk.symm, ih.mp h⟩

theorem rankOf_eq_none_iff (key : String) (ds : List LCDocument) :
    rankOf key ds = none ↔ key ∉ ds.map docId := by
  induction ds with
  | nil => simp [rankOf]
  | cons d ds ih =>
    by_cases hd : docId d = key
    · simp [rankOf, hd]
    · simp only [rankOf, if_neg hd, Option.map_eq_none', ih, List.map_cons,
        List.mem_cons, not_or]
      constructor
      · exact fun hn => ⟨fun hk => hd hk.symm, hn⟩
      · exact fun hn => hn.2

/-- Under distinct identity keys the (unique) occurrence index reported by
`lastOcc` is the rank of the key. -/
theorem lastOcc_rank_of_nodup (key : String) (ds : List LCDocument)
    (hn : (ds.map docId).Nodup) (i : ℕ) (e : LCDocument)
    (h : lastOcc key ds = some (i, e)) : rankOf key ds = some i := by
  induction ds generalizing i with
  | nil => simp [lastOcc] at h
  | cons d ds ih =>
    rw [List.map_cons, List.nodup_cons] at hn
    cases hrest : lastOcc key ds with
    | some p =>
      obtain ⟨j, e'⟩ := p
      rw [lastOcc, hrest] at h
      injection h with h
      rw [Prod.mk.injEq] at h
      obtain ⟨hji, hee⟩ := h
      rw [hee] at hrest
      have hkmem : key ∈ ds.map docId := by
        by_contra hk
        rw [← lastOcc_eq_none_iff] at hk
        rw [hk] at hrest
        exact Option.noConfusion hrest
      have hd : docId d ≠ key := fun hq => hn.1 (hq ▸ hkmem)
      rw [rankOf, if_neg hd, ih hn.2 j hrest, ← hji]
      rfl
    | none =>
      rw [lastOcc, hrest] at h
      by_cases hd : docId d = key
      · rw [if_pos hd] at h
        injection h with h
        rw [Prod.mk.injEq] at h
        obtain ⟨h0, -⟩ := h
        rw [rankOf, if_pos hd, h0]
      · rw [if_neg hd] at h
        exact Option.noConfusion h

theorem contrib_of_not_mem (c : ℚ) (key : String) (ds : List LCDocument) (r : ℕ)
    (h : key ∉ ds.map docId) : contrib c key ds r = 0 := by
  induction ds generalizing r with
  | nil => simp [contrib]
  | cons d ds ih =>
    rw [List.map_cons, List.mem_cons, not_or] at h
    rw [contrib, if_neg (fun hq => h.1 hq.symm), ih (r + 1) h.2, zero_add]

/-- Under distinct identity keys the accumulated dense contribution of a key
is the single term `1/(rank + c)` at its rank. -/
theorem contrib_of_nodup (c : ℚ) (key : String) (ds : List LCDocument)
    (hn : (ds.map docId).Nodup) (r : ℕ) :
    contrib c key ds r =
      match rankOf key ds with
      | some i => rrf c (r + i)
      | none => 0 := by
  induction ds generalizing r with
  | nil => simp [contrib, rankOf]
  | cons d ds ih =>
    rw [List.map_cons, List.nodup_cons] at hn
    by_cases hd : docId d = key
    · have : key ∉ ds.map docId := hd ▸ hn.1
      simp [contrib, rankOf, hd, contrib_of_not_mem c key ds (r + 1) this]
    · rw [contrib, if_neg hd, ih hn.2 (r + 1), rankOf, if_neg hd]
      cases h : rankOf key ds with
      | some i =>
        have : r + 1 + i = r + (i + 1) := by omega
        simp [this]
      | none => simp

theorem keys_dictSet (m : DocMap) (k : String) (v : ScoredEntry) :
    (dictSet m k v).map Prod.fst =
      if k ∈ m.map Prod.fst then m.map Prod.fst else m.map Prod.fst ++ [k] := by
  induction m with
  | nil => simp [dictSet]
  | cons p rest ih =>
    obtain ⟨k0, v0⟩ := p
    by_cases h0 : k0 = k
    · simp [dictSet, h0]
    · have : ¬ k = k0 := fun h => h0 h.symm
      by_cases hmem : k ∈ rest.map Prod.fst <;>
        simp [dictSet, h0, this, hmem, ih]

theorem keys_dictAdd (m : DocMap) (k : String) (s : ℚ) (d : LCDocument) :
    (dictAdd m k s d).map Prod.fst =
      if k ∈ m.map Prod.fst then m.map Prod.fst else m.map Prod.fst ++ [k] := by
  induction m with
  | nil => simp [dictAdd]
  | cons p rest ih =>
    obtain ⟨k0, v0⟩ := p
    by_cases h0 : k0 = k
    · simp [dictAdd, h0]
    · have : ¬ k = k0 := fun h => h0 h.symm
      by_cases hmem : k ∈ rest.map Prod.fst <;>
        simp [dictAdd, h0, this, hmem, ih]

theorem nodup_keys_dictSet (m : DocMap) (k : String) (v : ScoredEntry)
    (h : (m.map Prod.fst).Nodup) : ((dictSet m k v).map Prod.fst).Nodup := by
  rw [keys_dictSet]
  by_cases hmem : k ∈ m.map Prod.fst <;> simp [hmem, h, List.nodup_append]

theorem nodup_keys_dictAdd (m : DocMap) (k : String) (s : ℚ) (d : LCDocument)
    (h : (m.map Prod.fst).Nodup) : ((dictAdd m k s d).map Prod.fst).Nodup := by
  rw [keys_dictAdd]
  by_cases hmem : k ∈ m.map Prod.fst <;> simp [hmem, h, List.nodup_append]

theorem mem_keys_dictSet (m : DocMap) (k : String) (v : ScoredEntry) (key : String) :
    (key ∈ (dictSet m k v).map Prod.fst) ↔ key ∈ m.map Prod.fst ∨ key = k := by
  rw [keys_dictSet]
  by_cases hmem : k ∈ m.map Prod.fst
  · simp only [if_pos hmem]
    constructor
    · exact Or.inl
    · rintro (h | rfl) <;> [exact h; exact hmem]
  · simp [if_neg hmem]

theorem mem_keys_dictAdd (m : DocMap) (k : String) (s : ℚ) (d : LCDocument)
    (key : String) :
    (key ∈ (dictAdd m k s d).map Prod.fst) ↔ key ∈ m.map Prod.fst ∨ key = k := by
  rw [keys_dictAdd]
  by_cases hmem : k ∈ m.map Prod.fst
  · simp only [if_pos hmem]
    constructor
    · exact Or.inl
    · rintro (h | rfl) <;> [exact h; exact hmem]
  · simp [if_neg hmem]

theorem nodup_keys_sparsePhase (c : ℚ) (ds : List LCDocument) (r : ℕ) (m : DocMap)
    (h : (m.map Prod.fst).Nodup) : ((sparsePhase c ds r m).map Prod.fst).Nodup := by
  induction ds generalizing r m with
  | nil => exact h
  | cons d ds ih => exact ih (r + 1) _ (nodup_keys_dictSet m _ _ h)

theorem nodup_keys_densePhase (c : ℚ) (ds : List LCDocument) (r : ℕ) (m : DocMap)
    (h : (m.map Prod.fst).Nodup) : ((densePhase c ds r m).map Prod.fst).Nodup := by
  induction ds generalizing r m with
  | nil => exact h
  | cons d ds ih => exact ih (r + 1) _ (nodup_keys_dictAdd m _ _ _ h)

theorem mem_keys_sparsePhase (c : ℚ) (ds : List LCDocument) (r : ℕ) (m : DocMap)
    (key : String) :
    key ∈ (sparsePhase c ds r m).map Prod.fst ↔
      key ∈ m.map Prod.fst ∨ key ∈ ds.map docId := by
  induction ds generalizing r m with
  | nil => simp [sparsePhase]
  | cons d ds ih =>
    rw [sparsePhase, ih, mem_keys_dictSet]
    simp only [List.map_cons, List.mem_cons]
    constructor
    · rintro ((h | h) | h)
      · exact Or.inl h
      · exact Or.inr (Or.inl h)
      · exact Or.inr (Or.inr h)
    · rintro (h | h | h)
      · exact Or.inl (Or.inl h)
      · exact Or.inl (Or.inr h)
      · exact Or.inr h

theorem mem_keys_densePhase (c : ℚ) (ds : List LCDocument) (r : ℕ) (m : DocMap)
    (key : String) :
    key ∈ (densePhase c ds r m).map Prod.fst ↔
      key ∈ m.map Prod.fst ∨ key ∈ ds.map docId := by
  induction ds generalizing r m with
  | nil => simp [densePhase]
  | cons d ds ih =>
    rw [densePhase, ih, mem_keys_dictAdd]
    simp only [List.map_cons, List.mem_cons]
    constructor
    · rintro ((h | h) | h)
      · exact Or.inl h
      · exact Or.inr (Or.inl h)
      · exact Or.inr (Or.inr h)
    · rintro (h | h | h)
      · exact Or.inl (Or.inl h)
      · exact Or.inl (Or.inr h)
      · exact Or.inr h

theorem nodup_keys_fuse (c : ℚ) (sparse dense : List LCDocument) :
    ((fuse c sparse dense).map Prod.fst).Nodup :=
  nodup_keys_densePhase c dense 0 _
    (nodup_keys_sparsePhase c sparse 0 [] (by simp))

theorem mem_keys_fuse (c : ℚ) (sparse dense : List LCDocument) (key : String) :
    key ∈ (fuse c sparse dense).map Prod.fst ↔
      key ∈ sparse.map docId ∨ key ∈ dense.map docId := by
  rw [fuse, mem_keys_densePhase, mem_keys_sparsePhase]
  simp [or_comm]

/-- Characterization of one key's final entry in the `doc_scores` dict:
the sparse loop keeps only the LAST occurrence (assignment overwrites),
the dense loop SUMS every occurrence, and the stored document is the last
sparse occurrence if any, else the first dense occurrence. -/
theorem lookupKey_fuse (c : ℚ) (sparse dense : List LCDocument) (key : String) :
    lookupKey (fuse c sparse dense) key =
      match lastOcc key sparse, firstOcc key dense with
      | some (i, e), _ => some ⟨rrf c i + contrib c key dense 0, e⟩
      | none, some d => some ⟨contrib c key dense 0, d⟩
      | none, none => none := by
  rw [fuse, lookupKey_densePhase, lookupKey_sparsePhase]
  cases hlast : lastOcc key sparse with
  | some p =>
    obtain ⟨i, e⟩ := p
    simp
  | none =>
    cases hf : firstOcc key dense <;> simp [lookupKey]

/-- **C10**: in RRF fusion, when the same identity key occurs more than once
within the sparse hit list, only the last sparse occurrence's `1/(rank + c)`
contribution is kept — the earlier occurrence's score and document are
overwritten, not summed (`lastOcc`) — whereas duplicate occurrences within
the dense hit list each add their contribution to the accumulated score for
that key (`contrib` sums over all dense occurrences). -/
theorem c10_duplicate_key_semantics (c : ℚ) (sparse dense : List LCDocument)
    (key : String) :
    lookupKey (fuse c sparse dense) key =
      match lastOcc key sparse, firstOcc key dense with
      | some (i, e), _ => some ⟨rrf c i + contrib c key dense 0, e⟩
      | none, some d => some ⟨contrib c key dense 0, d⟩
      | none, none => none :=
  lookupKey_fuse c sparse dense key

/-- **C4**: for hit lists whose identity keys are distinct within each list,
the fused score of each document equals the sum, over the lists containing
it, of `1/(rank + c)` at its zero-based rank, and a document present in both
lists appears exactly once in the fused `doc_scores`, carrying the summed
score. -/
theorem c4_rrf_fusion_score (c : ℚ) (sparse dense : List LCDocument)
    (hs : (sparse.map docId).Nodup) (hd : (dense.map docId).Nodup)
    (key : String) :
    (((fuse c sparse dense).map Prod.fst).count key =
        if key ∈ sparse.map docId ∨ key ∈ dense.map docId then 1 else 0)
    ∧ ∀ e, lookupKey (fuse c sparse dense) key = some e →
        e.score =
          (match rankOf key sparse with
           | some i => rrf c i
           | none => 0) +
          (match rankOf key dense with
           | some j => rrf c j
           | none => 0) := by
  constructor
  · by_cases hmem : key ∈ (fuse c sparse dense).map Prod.fst
    · rw [List.count_eq_one_of_mem (nodup_keys_fuse c sparse dense) hmem,
        if_pos ((mem_keys_fuse c sparse dense key).mp hmem)]
    · rw [List.count_eq_zero_of_not_mem hmem,
        if_neg (fun hor => hmem ((mem_keys_fuse c sparse dense key).mpr hor))]
  · intro e he
    rw [lookupKey_fuse] at he
    cases hlast : lastOcc key sparse with
    | some p =>
      obtain ⟨i, e0⟩ := p
      rw [hlast] at he
      injection he with he
      rw [lastOcc_rank_of_nodup key sparse hs i e0 hlast,
        contrib_of_nodup c key dense hd 0] at *
      rw [← he]
      cases hr : rankOf key dense with
      | some j => simp [hr]
      | none => simp [hr]
    | none =>
      rw [hlast] at he
      have hsn : rankOf key sparse = none := by
        rw [rankOf_eq_none_iff]
        exact (lastOcc_eq_none_iff key sparse).mp hlast
      cases hf : firstOcc key dense with
      | some d0 =>
        rw [hf] at he
        injection he with he
        rw [hsn, ← he, contrib_of_nodup c key dense hd 0]
        cases hr : rankOf key dense with
        | some j => simp [hr]
        | none => simp [hr]
      | none =>
        rw [hf] at he
        exact Option.noConfusion he

/-- Witness for C4 at the spec's own scenario: sparse `[A,B,C]`,
dense `[B,D,A]`, `c = 60`. -/
theorem c4_rrf_fusion_score_witness :
    ((([⟨some "A", ""⟩, ⟨some "B", ""⟩, ⟨some "C", ""⟩] : List LCDocument).map
        docId).Nodup ∧
      (([⟨some "B", ""⟩, ⟨some "D", ""⟩, ⟨some "A", ""⟩] : List LCDocument).map
        docId).Nodup)
    ∧ ((fuse 60 [⟨some "A", ""⟩, ⟨some "B", ""⟩, ⟨some "C", ""⟩]
          [⟨some "B", ""⟩, ⟨some "D", ""⟩, ⟨some "A", ""⟩]).map Prod.fst).count "A" =
        if "A" ∈ ([⟨some "A", ""⟩, ⟨some "B", ""⟩, ⟨some "C", ""⟩] :
              List LCDocument).map docId ∨
           "A" ∈ ([⟨some "B", ""⟩, ⟨some "D", ""⟩, ⟨some "A", ""⟩] :
              List LCDocument).map docId
        then 1 else 0 :=
  ⟨⟨by decide, by decide⟩,
    (c4_rrf_fusion_score 60 _ _ (by decide) (by decide) "A").1⟩

theorem mem_insertDesc (x y : ScoredEntry) (l : List ScoredEntry) :
    y ∈ insertDesc x l ↔ y = x ∨ y ∈ l := by
  induction l with
  | nil => simp [insertDesc]
  | cons z zs ih =>
    by_cases h : x.score < z.score
    · rw [insertDesc, if_pos h]
      simp only [List.mem_cons, ih]
      tauto
    · rw [insertDesc, if_neg h]
      simp only [List.mem_cons]

theorem pairwise_insertDesc (x : ScoredEntry) (l : List ScoredEntry)
    (h : l.Pairwise fun a b => b.score ≤ a.score) :
    (insertDesc x l).Pairwise fun a b => b.score ≤ a.score := by
  induction l with
  | nil => simp [insertDesc]
  | cons z zs ih =>
    rw [List.pairwise_cons] at h
    by_cases hx : x.score < z.score
    · rw [insertDesc, if_pos hx, List.pairwise_cons]
      refine ⟨fun y hy => ?_, ih h.2⟩
      rcases (mem_insertDesc x y zs).mp hy with rfl | hy
      · exact le_of_lt hx
      · exact h.1 y hy
    · rw [insertDesc, if_neg hx, List.pairwise_cons]
      push_neg at hx
      refine ⟨fun y hy => ?_, List.pairwise_cons.mpr h⟩
      rcases List.mem_cons.mp hy with rfl | hy
      · exact hx
      · exact le_trans (h.1 y hy) hx

/-- The modelled `sorted(..., reverse=True)` output is non-increasing by
score. -/
theorem sortDesc_pairwise (l : List ScoredEntry) :
    (sortDesc l).Pairwise fun a b => b.score ≤ a.score := by
  induction l with
  | nil => simp [sortDesc]
  | cons x xs ih => exact pairwise_insertDesc x (sortDesc xs) ih

theorem filter_insertDesc (x : ScoredEntry) (l : List ScoredEntry) (s : ℚ) :
    (insertDesc x l).filter (fun e => decide (e.score = s)) =
      if x.score = s then x :: l.filter (fun e => decide (e.score = s))
      else l.filter (fun e => decide (e.score = s)) := by
  induction l with
  | nil =>
    by_cases hx : x.score = s <;> simp [insertDesc, List.filter, hx]
  | cons z zs ih =>
    by_cases hz : x.score < z.score
    · rw [insertDesc, if_pos hz]
      by_cases hx : x.score = s
      · have hzs : ¬ z.score = s := by
          intro hq
          rw [hq, ← hx] at hz
          exact lt_irrefl _ hz
        simp [List.filter, hx, hzs, ih]
      · by_cases hzs : z.score = s <;> simp [List.filter, hx, hzs, ih]
    · rw [insertDesc, if_neg hz]
      by_cases hx : x.score = s <;> simp [List.filter, hx]

/-- Stability: for every score value, the modelled stable sort preserves the
input order of the entries carrying that score. -/
theorem sortDesc_filter (l : List ScoredEntry) (s : ℚ) :
    (sortDesc l).filter (fun e => decide (e.score = s)) =
      l.filter (fun e => decide (e.score = s)) := by
  induction l with
  | nil => simp [sortDesc]
  | cons x xs ih =>
    rw [sortDesc, filter_insertDesc, ih]
    by_cases hx : x.score = s <;> simp [List.filter, hx]

/-- **C5**: for every pair of input hit lists and every `k`, the fused output
of hybrid retrieval has length at most `k` and is ordered non-increasing by
accumulated fusion score; ties are broken by retrieval-list order, i.e. the
sort is stable with respect to the insertion order of the `doc_scores` dict
(sparse hits in rank order, then new dense keys in rank order), with no
additional tie-break logic. -/
theorem c5_truncation_order_stability (sparse dense : List LCDocument)
    (k : ℕ) (c : ℚ) :
    (getRelevantDocuments sparse dense k c).length ≤ k
    ∧ ((sortDesc ((fuse c sparse dense).map Prod.snd)).take k).Pairwise
        (fun a b => b.score ≤ a.score)
    ∧ ∀ s : ℚ,
        (sortDesc ((fuse c sparse dense).map Prod.snd)).filter
            (fun e => decide (e.score = s)) =
          ((fuse c sparse dense).map Prod.snd).filter
            (fun e => decide (e.score = s)) := by
  refine ⟨?_, ?_, fun s => sortDesc_filter _ s⟩
  · rw [getRelevantDocuments, List.length_map, List.length_take]
    exact min_le_left _ _
  · exact List.Pairwise.sublist (List.take_sublist _ _) (sortDesc_pairwise _)

/-! ## Hexagonal metrics, from `app/graph/knowledge_graph.py`
(`calculate_hexagonal_metrics`, lines 39–107)

The six metrics are computed inside ONE `try` block; `int(...)` on a
non-numeric LLM judge response raises `ValueError`, which jumps to the
`except` and leaves every not-yet-assigned metric at its initial `0`.
The LLM responses and the two Neo4j query results are inputs here;
Python floats are modelled as exact rationals. -/

/-- Python `str.strip()`: drop whitespace from both ends. -/
def pyStrip (s : String) : String :=
  ⟨((s.data.dropWhile Char.isWhitespace).reverse.dropWhile
      Char.isWhitespace).reverse⟩

/-- A non-empty all-digit character run, as the number it denotes. -/
def parseDigits (l : List Char) : Option ℕ :=
  if l ≠ [] ∧ l.all Char.isDigit then
    some (l.foldl (fun acc c => acc * 10 + (c.toNat - 48)) 0)
  else none

/-- Python `int(t)` on an already-stripped string: an optional sign followed
by digits; anything else raises (`none`). -/
def pyParseInt (t : String) : Option ℤ :=
  match t.data with
  | [] => none
  | c :: rest =>
    if c = '-' then (parseDigits rest).map (fun n => -(n : ℤ))
    else if c = '+' then (parseDigits rest).map (fun n => (n : ℤ))
    else (parseDigits (c :: rest)).map (fun n => (n : ℤ))

/-- `int(str(response).strip() or 0)`: an all-whitespace response is falsy,
so `or 0` turns it into `0`; otherwise `int` parses the stripped text or
raises (`none`). No clamping of any kind. -/
def parseJudge (s : String) : Option ℤ :=
  if (pyStrip s).data = [] then some 0 else pyParseInt (pyStrip s)

/-- The `metrics` dict of `calculate_hexagonal_metrics`: exactly these six
keys, initialised to 0. -/
structure HexMetrics where
  connectivity : ℤ
  factuality : ℤ
  depth : ℤ
  originality : ℤ
  density : ℤ
  insight : ℤ
deriving DecidableEq, Repr

/-- `min(100, int(avg_conn * 10))` with `avg_conn = connections / nodes`,
guarded by `if conn_res and conn_res[0]['nodes'] > 0`. `int()` on a
non-negative float truncates, i.e. floors. -/
def connectivityMetric (connRes : Option (ℕ × ℕ)) : ℤ :=
  match connRes with
  | some (connections, nodes) =>
    if 0 < nodes then min 100 ⌊((connections : ℚ) / (nodes : ℚ)) * 10⌋ else 0
  | none => 0

/-- `min(100, int(depth_res[0]['paths'] * 5)) if depth_res else 0`. -/
def depthMetric : Option ℕ → ℤ
  | some paths => min 100 ((paths : ℤ) * 5)
  | none => 0

/-- `min(100, int((rel_count / max(1, len(node_ids))) * 20))` over the result
rows; a row is `some vs` when it is a dict with values `vs` (only those rows
contribute node ids), `none` otherwise; `node_ids` is a set, modelled by
`dedup`. An empty result list leaves density 0. -/
def densityMetric (results : List (Option (List String))) : ℤ :=
  if results.isEmpty then 0
  else
    min 100
      ⌊((results.length : ℚ) /
          ((max 1 ((results.filterMap id).flatten.dedup).length : ℕ) : ℚ)) * 20⌋

/-- `calculate_hexagonal_metrics`: sequential computation of the six metrics
inside one `try`; a parse failure (`ValueError` from `int(...)`) aborts the
remaining assignments and the partially filled dict is returned. -/
def calculate_hexagonal_metrics (connRes : Option (ℕ × ℕ)) (factResp : String)
    (depthRes : Option ℕ) (origResp : String)
    (results : List (Option (List String))) (insightResp : String) :
    HexMetrics :=
  let m1 : HexMetrics :=
    { connectivity := connectivityMetric connRes, factuality := 0, depth := 0,
      originality := 0, density := 0, insight := 0 }
  match parseJudge factResp with
  | none => m1
  | some f =>
    let m2 := { m1 with factuality := f }
    let m3 := { m2 with depth := depthMetric depthRes }
    match parseJudge origResp with
    | none => m3
    | some o =>
      let m4 := { m3 with originality := o }
      let m5 := { m4 with density := densityMetric results }
      match parseJudge insightResp with
      | none => m5
      | some i => { m5 with insight := i }

/-- The returned Python dict, key by key in insertion order. -/
def metricsDict (m : HexMetrics) : List (String × ℤ) :=
  [("connectivity", m.connectivity), ("factuality", m.factuality),
   ("depth", m.depth), ("originality", m.originality),
   ("density", m.density), ("insight", m.insight)]

theorem connectivityMetric_bounds (connRes : Option (ℕ × ℕ)) :
    0 ≤ connectivityMetric connRes ∧ connectivityMetric connRes ≤ 100 := by
  match connRes with
  | none => simp [connectivityMetric]
  | some (connections, nodes) =>
    rw [connectivityMetric]
    by_cases h : 0 < nodes
    · rw [if_pos h]
      refine ⟨le_min (by norm_num) (Int.floor_nonneg.mpr (by positivity)),
        min_le_left _ _⟩
    · rw [if_neg h]
      norm_num

theorem depthMetric_bounds (depthRes : Option ℕ) :
    0 ≤ depthMetric depthRes ∧ depthMetric depthRes ≤ 100 := by
  match depthRes with
  | none => simp [depthMetric]
  | some paths =>
    exact ⟨le_min (by norm_num) (by positivity), min_le_left _ _⟩

theorem densityMetric_bounds (results : List (Option (List String))) :
    0 ≤ densityMetric results ∧ densityMetric results ≤ 100 := by
  rw [densityMetric]
  by_cases h : results.isEmpty
  · rw [if_pos h]
    norm_num
  · rw [if_neg h]
    refine ⟨le_min (by norm_num) (Int.floor_nonneg.mpr (by positivity)),
      min_le_left _ _⟩

theorem calcShape_fact_none (connRes : Option (ℕ × ℕ)) (factResp : String)
    (depthRes : Option ℕ) (origResp : String)
    (results : List (Option (List String))) (insightResp : String)
    (h : parseJudge factResp = none) :
    calculate_hexagonal_metrics connRes factResp depthRes origResp results
        insightResp =
      ⟨connectivityMetric connRes, 0, 0, 0, 0, 0⟩ := by
  rw [calculate_hexagonal_metrics, h]

theorem calcShape_orig_none (connRes : Option (ℕ × ℕ)) (factResp : String)
    (depthRes : Option ℕ) (origResp : String)
    (results : List (Option (List String))) (insightResp : String) (f : ℤ)
    (hf : parseJudge factResp = some f) (ho : parseJudge origResp = none) :
    calculate_hexagonal_metrics connRes factResp depthRes origResp results
        insightResp =
      ⟨connectivityMetric connRes, f, depthMetric depthRes, 0, 0, 0⟩ := by
  rw [calculate_hexagonal_metrics, hf, ho]

theorem calcShape_insight_none (connRes : Option (ℕ × ℕ)) (factResp : String)
    (depthRes : Option ℕ) (origResp : String)
    (results : List (Option (List String))) (insightResp : String) (f o : ℤ)
    (hf : parseJudge factResp = some f) (ho : parseJudge origResp = some o)
    (hi : parseJudge insightResp = none) :
    calculate_hexagonal_metrics connRes factResp depthRes origResp results
        insightResp =
      ⟨connectivityMetric connRes, f, depthMetric depthRes, o,
        densityMetric results, 0⟩ := by
  rw [calculate_hexagonal_metrics, hf, ho, hi]

theorem calcShape_all_some (connRes : Option (ℕ × ℕ)) (factResp : String)
    (depthRes : Option ℕ) (origResp : String)
    (results : List (Option (List String))) (insightResp : String) (f o i : ℤ)
    (hf : parseJudge factResp = some f) (ho : parseJudge origResp = some o)
    (hi : parseJudge insightResp = some i) :
    calculate_hexagonal_metrics connRes factResp depthRes origResp results
        insightResp =
      ⟨connectivityMetric connRes, f, depthMetric depthRes, o,
        densityMetric results, i⟩ := by
  rw [calculate_hexagonal_metrics, hf, ho, hi]

/-- **C1 counterexample**: the LLM-judged metrics are NOT clamped to
`[0,100]`: a judge response of `"150"` yields factuality 150 > 100, and
`"-5"` yields −5 < 0. -/
theorem c1_counterexample_llm_metric_unclamped :
    100 < (calculate_hexagonal_metrics none "150" none "0" [] "0").factuality
    ∧ (calculate_hexagonal_metrics none "-5" none "0" [] "0").factuality < 0 :=
  ⟨by decide, by decide⟩

/-- **C1 amended**: the graph-derived metrics (connectivity, depth, density)
always lie in `[0,100]`; an LLM-judged metric is the judge's parsed integer
with NO clamping (0 when the judge step fails or does not run); no
consistency metric is computed in code (the consistency formula exists only
inside an LLM prompt). -/
theorem c1_amended_metric_clamping (connRes : Option (ℕ × ℕ))
    (factResp : String) (depthRes : Option ℕ) (origResp : String)
    (results : List (Option (List String))) (insightResp : String) :
    (0 ≤ (calculate_hexagonal_metrics connRes factResp depthRes origResp
        results insightResp).connectivity
      ∧ (calculate_hexagonal_metrics connRes factResp depthRes origResp
        results insightResp).connectivity ≤ 100)
    ∧ (0 ≤ (calculate_hexagonal_metrics connRes factResp depthRes origResp
        results insightResp).depth
      ∧ (calculate_hexagonal_metrics connRes factResp depthRes origResp
        results insightResp).depth ≤ 100)
    ∧ (0 ≤ (calculate_hexagonal_metrics connRes factResp depthRes origResp
        results insightResp).density
      ∧ (calculate_hexagonal_metrics connRes factResp depthRes origResp
        results insightResp).density ≤ 100)
    ∧ (calculate_hexagonal_metrics connRes factResp depthRes origResp
        results insightResp).factuality = (parseJudge factResp).getD 0 := by
  cases hf : parseJudge factResp with
  | none =>
    rw [calcShape_fact_none connRes factResp depthRes origResp results
      insightResp hf]
    exact ⟨connectivityMetric_bounds connRes, ⟨le_refl 0, by norm_num⟩,
      ⟨le_refl 0, by norm_num⟩, rfl⟩
  | some f =>
    cases ho : parseJudge origResp with
    | none =>
      rw [calcShape_orig_none connRes factResp depthRes origResp results
        insightResp f hf ho]
      exact ⟨connectivityMetric_bounds connRes, depthMetric_bounds depthRes,
        ⟨le_refl 0, by norm_num⟩, rfl⟩
    | some o =>
      cases hi : parseJudge insightResp with
      | none =>
        rw [calcShape_insight_none connRes factResp depthRes origResp results
          insightResp f o hf ho hi]
        exact ⟨connectivityMetric_bounds connRes, depthMetric_bounds depthRes,
          densityMetric_bounds results, rfl⟩
      | some i =>
        rw [calcShape_all_some connRes factResp depthRes origResp results
          insightResp f o i hf ho hi]
        exact ⟨connectivityMetric_bounds connRes, depthMetric_bounds depthRes,
          densityMetric_bounds results, rfl⟩

/-- **C3 counterexample**: the six metric computations share ONE `try`
block, so a non-numeric factuality judge response does block the later
metrics: with graph results present (`depthMetric (some 5) = 25`) and a
numeric insight response (`"90"`), both depth and insight are left at 0. -/
theorem c3_counterexample_failure_blocks_others :
    (calculate_hexagonal_metrics (some (4, 2)) "high quality" (some 5) "80"
        [some ["a", "b"]] "90").depth = 0
    ∧ depthMetric (some 5) = 25
    ∧ (calculate_hexagonal_metrics (some (4, 2)) "high quality" (some 5) "80"
        [some ["a", "b"]] "90").insight = 0
    ∧ parseJudge "90" = some 90 :=
  ⟨by decide, by decide, by decide, by decide⟩

/-- **C3 amended**: a failure while computing one metric (e.g. a non-numeric
LLM judge response) leaves that metric and every metric computed after it at
the default 0, while metrics already computed keep their values; the
returned object still contains all six fields with no nulls. Stated at the
earliest failure point, the factuality judge. -/
theorem c3_amended_failure_zeroes_rest (connRes : Option (ℕ × ℕ))
    (factResp : String) (depthRes : Option ℕ) (origResp : String)
    (results : List (Option (List String))) (insightResp : String)
    (h : parseJudge factResp = none) :
    calculate_hexagonal_metrics connRes factResp depthRes origResp results
        insightResp =
      ⟨connectivityMetric connRes, 0, 0, 0, 0, 0⟩ :=
  calcShape_fact_none connRes factResp depthRes origResp results insightResp h

/-- Witness for C3's amended claim at a concrete failing judge response. -/
theorem c3_amended_failure_zeroes_rest_witness :
    parseJudge "high quality" = none
    ∧ calculate_hexagonal_metrics (some (4, 2)) "high quality" (some 5) "80"
        [some ["a", "b"]] "90" =
      ⟨connectivityMetric (some (4, 2)), 0, 0, 0, 0, 0⟩ :=
  ⟨by decide,
    c3_amended_failure_zeroes_rest (some (4, 2)) "high quality" (some 5) "80"
      [some ["a", "b"]] "90" (by decide)⟩

/-- **C6 counterexample**: the dict returned by the scorer has no
`"aggregate"` key. -/
theorem c6_counterexample_no_aggregate_field :
    List.lookup "aggregate"
      (metricsDict (calculate_hexagonal_metrics none "50" none "50" [] "50")) =
      none := by
  decide

/-- **C6 amended**: the scorer returns exactly the six metric fields
connectivity, factuality, depth, originality, density, insight — in this
order — and computes no aggregate field (the "arithmetic mean" line exists
only inside an LLM prompt elsewhere in the repository). -/
theorem c6_amended_exactly_six_fields (connRes : Option (ℕ × ℕ))
    (factResp : String) (depthRes : Option ℕ) (origResp : String)
    (results : List (Option (List String))) (insightResp : String) :
    (metricsDict (calculate_hexagonal_metrics connRes factResp depthRes
        origResp results insightResp)).map Prod.fst =
      ["connectivity", "factuality", "depth", "originality", "density",
        "insight"]
    ∧ List.lookup "aggregate"
        (metricsDict (calculate_hexagonal_metrics connRes factResp depthRes
          origResp results insightResp)) = none :=
  ⟨rfl, rfl⟩

/-! ## Bounded-depth claim verification, from `core/rlm_evaluator.py`

`verify_claim(claim, depth)` checks the depth bound and otherwise delegates
to `verify_with_rlm(claim)`, whose outcome depends only on whether the
`RLM_REPL.completion` call returns an answer string or raises; that outcome
is an input here (`Except`: `ok` = the agent's final answer text, `error` =
the raised exception's message). -/

/-- The result dict of `verify_claim` / `verify_with_rlm`; keys absent from
a branch's dict are `none`. -/
structure VerifyResult where
  claim : String
  verified : Bool
  reason : Option String := none
  output : Option String := none
  error : Option String := none
  confidence : ℚ
deriving DecidableEq, Repr

/-- `self.max_depth = 3`. -/
def max_depth : ℕ := 3

/-- `verify_with_rlm`: on success returns `verified=True` with the raw agent
answer under `output` and the hard-coded placeholder confidence `0.9`; on
exception returns `verified=False`, the message under `error`, confidence 0. -/
def verify_with_rlm (claim : String) (rlmAnswer : Except String String) :
    VerifyResult :=
  match rlmAnswer with
  | .ok finalAnswer =>
    { claim := claim, verified := true, output := some finalAnswer,
      confidence := 9/10 }
  | .error e =>
    { claim := claim, verified := false, error := some e, confidence := 0 }

/-- `verify_claim`: the depth guard `if depth >= self.max_depth` returns the
fixed terminal dict before any agent is constructed or invoked. -/
def verify_claim (claim : String) (depth : ℕ)
    (rlmAnswer : Except String String) : VerifyResult :=
  if max_depth ≤ depth then
    { claim := claim, verified := false, reason := some "Max depth reached",
      confidence := 1/2 }
  else verify_with_rlm claim rlmAnswer

/-- **C2**: for every claim and every `depth ≥ max_depth (= 3)`,
`verify_claim` returns `verified = false`, reason `"Max depth reached"` and
confidence `0.5`, and the result does not depend on the reasoning agent's
outcome — no tool or sub-agent is consulted; this is a defined terminal
state, not an error (`error = none`). -/
theorem c2_depth_bound_terminal (claim : String) (depth : ℕ)
    (rlmAnswer rlmAnswer' : Except String String) (h : max_depth ≤ depth) :
    verify_claim claim depth rlmAnswer =
      { claim := claim, verified := false,
        reason := some "Max depth reached", output := none, error := none,
        confidence := 1/2 }
    ∧ verify_claim claim depth rlmAnswer =
        verify_claim claim depth rlmAnswer' := by
  rw [verify_claim, if_pos h, verify_claim, if_pos h]
  exact ⟨rfl, rfl⟩

/-- Witness for C2 at depth 3 (the spec's own scenario), with two different
agent outcomes. -/
theorem c2_depth_bound_terminal_witness :
    max_depth ≤ 3
    ∧ (verify_claim "Company X reported record profit" 3 (.ok "True") =
        { claim := "Company X reported record profit", verified := false,
          reason := some "Max depth reached", output := none, error := none,
          confidence := 1/2 }
      ∧ verify_claim "Company X reported record profit" 3 (.ok "True") =
          verify_claim "Company X reported record profit" 3
            (.error "unreachable")) :=
  ⟨by decide,
    c2_depth_bound_terminal "Company X reported record profit" 3 (.ok "True")
      (.error "unreachable") (by decide)⟩

/-- **C8** (code bug, evaluated at the failing input): below the depth bound
the code does NOT return the agent's verdict or an extracted confidence — on
any successful agent call it returns the constants `verified = True` and
`confidence = 0.9` (the source marks the extraction as
`# Placeholder: extraction logic would go here`), even when the agent's
final answer says False with a different confidence. -/
theorem c8_verdict_not_extracted :
    (verify_claim "2+2=5" 0 (.ok "False. Confidence: 0.05")).verified = true
    ∧ (verify_claim "2+2=5" 0 (.ok "False. Confidence: 0.05")).confidence =
        9/10
    ∧ (verify_claim "2+2=5" 0 (.ok "True. Confidence: 0.99")).confidence =
        9/10
    ∧ (verify_claim "2+2=5" 0 (.ok "False. Confidence: 0.05")).output =
        some "False. Confidence: 0.05" :=
  ⟨rfl, rfl, rfl, rfl⟩

/-! ## Facet decomposition, from `app/rag/decomposer.py`
(`QueryDecomposer.decompose_article`)

The JSON-extraction step of the source — `re.search(r'\x7b.*\x7d', text,
re.DOTALL)`, `json.loads`, and pydantic validation of each facet — is
abstracted as a `parseFacets` input function returning `none` exactly when
that pipeline raises; the surrounding control flow (single LLM call, no
retry, `except` branch building the fallback result) is modelled here. -/

structure SearchFacet where
  facet_query : String
  dimension : String
deriving DecidableEq, Repr

/-- `ArticleAnalysisResult` with its pydantic defaults. -/
structure ArticleAnalysisResult where
  facets : List SearchFacet
  core_summary : String := "요약 생성 실패"
  primary_entities : List String := []
deriving DecidableEq, Repr

/-- `decompose_article` after the single `acomplete` call: parse the
response; on any parse failure return the synthetic single-facet fallback
(`facet_query = article_content[:50]`, `dimension = "핵심 주제"`, the
generic "core topic" label). -/
def decompose_article (parseFacets : String → Option (List SearchFacet))
    (article_content : String) (response : String) : ArticleAnalysisResult :=
  match parseFacets response with
  | some fs => { facets := fs }
  | none =>
    { facets := [{ facet_query := article_content.take 50,
                   dimension := "핵심 주제" }] }

/-- **C9**: whenever the LLM response cannot be parsed as the expected JSON
structure, `decompose_article` returns (it is total — it neither raises nor
retries the single LLM call) exactly one facet, whose query is the first 50
characters of the input text and whose dimension is the generic "core
topic" fallback label `"핵심 주제"`. -/
theorem c9_parse_failure_single_fallback_facet
    (parseFacets : String → Option (List SearchFacet))
    (article_content response : String) (h : parseFacets response = none) :
    (decompose_article parseFacets article_content response).facets =
      [{ facet_query := article_content.take 50, dimension := "핵심 주제" }]
    ∧ (decompose_article parseFacets article_content response).facets.length =
        1 := by
  rw [decompose_article, h]
  exact ⟨rfl, rfl⟩

/-- Witness for C9 on a concrete unparsable response. -/
theorem c9_parse_failure_single_fallback_facet_witness :
    ((fun _ : String => (none : Option (List SearchFacet))) "no json here" =
      none)
    ∧ ((decompose_article (fun _ => none) "삼성전자가 3분기 영업이익을 발표했다"
          "no json here").facets =
        [{ facet_query := ("삼성전자가 3분기 영업이익을 발표했다" :
              String).take 50,
           dimension := "핵심 주제" }]
      ∧ (decompose_article (fun _ => none) "삼성전자가 3분기 영업이익을 발표했다"
          "no json here").facets.length = 1) :=
  ⟨rfl,
    c9_parse_failure_single_fallback_facet (fun _ => none)
      "삼성전자가 3분기 영업이익을 발표했다" "no json here" rfl⟩

/-! ## Draft validation against the evidence graph, from
`app/graph/knowledge_graph.py` (`validate_user_article`, lines 160–204)

The Neo4j store is modelled by the triples it holds, each tagged with the
provenance label its sync run used; LLM-backed triple extraction
(`SimpleLLMPathExtractor`) is an input function. `validate_user_article` is
modelled as the sequence of store operations it issues plus its in-memory
artifacts. -/

structure Triple where
  subj : String
  pred : String
  obj : String
deriving DecidableEq, Repr

/-- The shared graph store's content: extracted triples with their
provenance label. -/
abbrev GraphState := List (Triple × String)

/-- One store write issued by the validation path. -/
inductive GraphOp where
  | deleteAll
  | insertTriples (ts : List (Triple × String))
deriving DecidableEq, Repr

def applyOp (g : GraphState) : GraphOp → GraphState
  | .deleteAll => []
  | .insertTriples ts => g ++ ts

def runOps (g : GraphState) (ops : List GraphOp) : GraphState :=
  ops.foldl applyOp g

/-- `sync_to_neo4j(retrieved_nodes, label)`: extract triples from every
document and write them into the store under `label`. -/
def syncOps (extract : String → List Triple) (docs : List String)
    (label : String) : List GraphOp :=
  [.insertTriples
    ((docs.map fun d => (extract d).map fun t => (t, label)).flatten)]

/-- The store operations of one `validate_user_article` call, in order:
`MATCH (n) DETACH DELETE n` first, then the `VerifiedSource` evidence sync.
The draft's triples (`extractor.acall([temp_doc])`) are computed in memory
and issue NO store operation. -/
def validateOps (extract : String → List Triple) (contextDocs : List String) :
    List GraphOp :=
  .deleteAll :: syncOps extract contextDocs "VerifiedSource"

/-- What one validation run produces: the graph view read back after the
sync (`existing_knowledge`), the draft's in-memory triples, and the store
state it leaves behind. (The `LIMIT 100` row cap of the read-back query is
not modelled; Neo4j row order is backend-defined.) -/
structure ValidationRun where
  existing_knowledge : GraphState
  user_triplets : List Triple
  finalState : GraphState
deriving DecidableEq, Repr

def validate_user_article (extract : String → List Triple)
    (user_article_text : String) (contextDocs : List String)
    (g : GraphState) : ValidationRun :=
  { existing_knowledge := runOps g (validateOps extract contextDocs),
    user_triplets := extract user_article_text,
    finalState := runOps g (validateOps extract contextDocs) }

/-- **C7**: every validation run deletes all nodes before syncing the
evidence under `VerifiedSource`, and the draft's triples stay in memory, so
after `validate(draftA)` then `validate(draftB)`: the graph view of run B is
exactly the freshly synced evidence; every stored triple carries the
`VerifiedSource` label and comes from a context document (never from a
draft); and run B's entire result is independent of run A's draft and of the
inherited store state. -/
theorem c7_validation_isolation (extract : String → List Triple)
    (draftA draftB : String) (ctx : List String) (g : GraphState) :
    (validate_user_article extract draftB ctx
        (validate_user_article extract draftA ctx g).finalState).existing_knowledge
      = runOps [] (syncOps extract ctx "VerifiedSource")
    ∧ (∀ t label,
        (t, label) ∈ (validate_user_article extract draftB ctx
            (validate_user_article extract draftA ctx g).finalState).finalState →
          label = "VerifiedSource" ∧ ∃ d ∈ ctx, t ∈ extract d)
    ∧ validate_user_article extract draftB ctx
        (validate_user_article extract draftA ctx g).finalState =
      validate_user_article extract draftB ctx g := by
  refine ⟨rfl, ?_, rfl⟩
  intro t label hmem
  simp only [validate_user_article, validateOps, syncOps, runOps,
    List.foldl_cons, List.foldl_nil, applyOp, List.nil_append,
    List.mem_flatten, List.mem_map] at hmem
  obtain ⟨l, ⟨d, hd, rfl⟩, hin⟩ := hmem
  rw [List.mem_map] at hin
  obtain ⟨t0, ht0, heq⟩ := hin
  rw [Prod.mk.injEq] at heq
  obtain ⟨rfl, rfl⟩ := heq
  exact ⟨rfl, d, hd, ht0⟩

end KAG
